import Mathlib

/-!
Verification development for the AITrader pattern/strategy pipeline.

Shallow embedding of:
- `pattern_engine/state.py` (EMA, VWAP, Welford incremental indicators),
- `pattern_engine/pattern_detector.py` (`PatternDetector.SymbolState.update_and_detect`),
- `pattern_engine/partitioning.py` (`bin_pack_symbols`, `select_partition_symbols`),
- `strategy_engine/ml_client.py` (`MLServiceManager.get_dual_forecast` and the
  per-backend forecast wrappers),
- `strategy_engine/enhanced_strategy_service.py` (`calculate_combined_score`,
  `calculate_position_size`, the decision core of `enhanced_decide_and_order`),
- `strategy_engine/calculator.py` (`Calculator.atr`).

Python floats are modelled as exact rationals; Python float division by zero
(which raises `ZeroDivisionError`) is modelled with `Except`/`Option` results.
Mutable objects are modelled by explicit state passing.
-/

/-- Exponential moving average state, from `pattern_engine/state.py` class `EMA`:
`value` is `None` before the first update. -/
structure EMA where
  alpha : ℚ
  value : Option ℚ
deriving DecidableEq

/-- `EMA.update` from `pattern_engine/state.py`: the first call sets the value to the
input; later calls set `alpha*x + (1-alpha)*value`. Returns the new value together
with the updated state (the Python method mutates `self` and returns the value). -/
def EMA.update (e : EMA) (x : ℚ) : ℚ × EMA :=
  match e.value with
  | none => (x, { e with value := some x })
  | some v =>
    let v2 := e.alpha * x + (1 - e.alpha) * v
    (v2, { e with value := some v2 })

/-- Incremental VWAP accumulator state, from `pattern_engine/state.py` class `VWAP`:
cumulative price*volume (`pv`) and cumulative volume. -/
structure VWAP where
  pv : ℚ
  volume : ℚ
deriving DecidableEq

/-- `VWAP.update` from `pattern_engine/state.py`: accumulates `price*volume` and
`volume`, returns `0.0` while cumulative volume is `0` and otherwise the ratio. -/
def VWAP.update (s : VWAP) (price volume : ℚ) : ℚ × VWAP :=
  let pv2 := s.pv + price * volume
  let vol2 := s.volume + volume
  (if vol2 = 0 then 0 else pv2 / vol2, { pv := pv2, volume := vol2 })

/-- Online mean/variance accumulator, from `pattern_engine/state.py` class `Welford`. -/
structure Welford where
  count : ℕ
  mean : ℚ
  m2 : ℚ
deriving DecidableEq

/-- `Welford.update` from `pattern_engine/state.py`: count += 1; delta = x - mean;
mean += delta/count; delta2 = x - mean; m2 += delta*delta2. -/
def Welford.update (w : Welford) (x : ℚ) : Welford :=
  let count2 := w.count + 1
  let delta := x - w.mean
  let mean2 := w.mean + delta / (count2 : ℚ)
  let delta2 := x - mean2
  { count := count2, mean := mean2, m2 := w.m2 + delta * delta2 }

/-- `Welford.variance` property from `pattern_engine/state.py`:
`m2/(count-1)` for `count ≥ 2`, else `0`. -/
def Welford.variance (w : Welford) : ℚ :=
  if w.count < 2 then 0 else w.m2 / ((w.count : ℚ) - 1)

/-- Detection configuration, from `pattern_engine/config.py` (`PatternEngineConfig`),
restricted to the fields `update_and_detect` reads. -/
structure Cfg where
  signal_score_min : ℚ
  volume_ema_alpha : ℚ
  volume_spike_multiplier : ℚ
  signal_cooldown_seconds : ℚ
  tp_base_pct : ℚ
  tp_confidence_scale : ℚ
  sl_base_pct : ℚ
  sl_confidence_scale : ℚ
deriving DecidableEq

/-- Default configuration values from `pattern_engine/config.py`. -/
def defaultCfg : Cfg :=
  { signal_score_min := 3/10
    volume_ema_alpha := 1/10
    volume_spike_multiplier := 2
    signal_cooldown_seconds := 30
    tp_base_pct := 6/1000
    tp_confidence_scale := 1/100
    sl_base_pct := 6/1000
    sl_confidence_scale := 1/100 }

/-- Pattern labels that `update_and_detect` can attach to a signal. -/
inductive Pattern where
  | ema_crossover
  | vwap_deviation
  | volume_spike
  | volatility_breakout
  | composite
deriving DecidableEq

/-- The fields of the signal dict built in `update_and_detect` that this
development reasons about (`id`/`symbol` strings and the raw-indicator meta
entries are omitted). -/
structure Signal where
  score : ℚ
  pattern : Pattern
  timestamp : ℚ
  confidence : ℚ
  tp_hint_pct : ℚ
  sl_hint_pct : ℚ
deriving DecidableEq

/-- The per-tick inputs of the rule-evaluation block of `update_and_detect`
(`pattern_detector.py` lines 68-105): the freshly updated indicator values plus
the tick itself. `avgVolume` is the value `self.avg_volume_ema.update(volume)`
would return. -/
structure RuleCtx where
  mult : ℚ
  price : ℚ
  volume : ℚ
  emaFast : ℚ
  emaSlow : ℚ
  vwapPrice : ℚ
  avgVolume : ℚ
  welford : Welford
deriving DecidableEq

/-- The condition `price_change > volatility * 2` of the volatility rule,
where `volatility = sqrt(variance)`, encoded over the rationals:
for `0 ≤ v` it is equivalent to `2 * sqrt v < pc` (see
`breakoutGt2Std_iff_sqrt`). -/
def breakoutGt2Std (pc v : ℚ) : Prop :=
  0 < pc ∧ 4 * v < pc * pc

instance (pc v : ℚ) : Decidable (breakoutGt2Std pc v) := by
  unfold breakoutGt2Std
  exact inferInstance

/-- EMA crossover rule (`pattern_detector.py` lines 72-77). The Python guard
`if ema_fast and ema_slow` is float truthiness, i.e. both nonzero. -/
def rule1 (ctx : RuleCtx) (sp : ℚ × Option Pattern) : ℚ × Option Pattern :=
  if ctx.emaFast ≠ 0 ∧ ctx.emaSlow ≠ 0 then
    let ema_diff := (ctx.emaFast - ctx.emaSlow) / ctx.emaSlow
    if 1/100 < |ema_diff| then (sp.1 + ema_diff * 2, some Pattern.ema_crossover) else sp
  else sp

/-- VWAP deviation rule (`pattern_detector.py` lines 79-85): sets the pattern
only when it is still unset. -/
def rule2 (ctx : RuleCtx) (sp : ℚ × Option Pattern) : ℚ × Option Pattern :=
  if ctx.vwapPrice ≠ 0 then
    let vwap_diff := (ctx.price - ctx.vwapPrice) / ctx.vwapPrice
    if 5/1000 < |vwap_diff| then
      (sp.1 + vwap_diff * (3/2), if sp.2 = none then some Pattern.vwap_deviation else sp.2)
    else sp
  else sp

/-- Volume spike rule (`pattern_detector.py` lines 87-97): overwrites the pattern
unconditionally when it fires. -/
def rule3 (ctx : RuleCtx) (sp : ℚ × Option Pattern) : ℚ × Option Pattern :=
  if 0 < ctx.volume then
    let avg_volume := if ctx.avgVolume = 0 then ctx.volume else ctx.avgVolume
    let volume_ratio := ctx.volume / avg_volume
    if ctx.mult < volume_ratio then
      ((if 0 < sp.1 then sp.1 + 3/10 else sp.1 - 3/10), some Pattern.volume_spike)
    else sp
  else sp

/-- Volatility breakout rule (`pattern_detector.py` lines 99-105): requires
`welford.count > 5`; divides by `price` (a Python `ZeroDivisionError` when
`price = 0`, modelled as `Except.error`); overwrites the pattern
unconditionally when it fires. -/
def rule4 (ctx : RuleCtx) (sp : ℚ × Option Pattern) : Except Unit (ℚ × Option Pattern) :=
  if 5 < ctx.welford.count then
    if ctx.price = 0 then Except.error () else
    let f := if ctx.emaFast = 0 then ctx.price else ctx.emaFast
    let price_change := |ctx.price - f| / ctx.price
    if breakoutGt2Std price_change ctx.welford.variance then
      Except.ok ((if 0 < sp.1 then sp.1 + 2/5 else sp.1 - 2/5), some Pattern.volatility_breakout)
    else Except.ok sp
  else Except.ok sp

/-- The whole pattern-detection block of `update_and_detect`
(`pattern_detector.py` lines 68-105), starting from `signal_score = 0.0`,
`pattern_type = None`. -/
def evalRules (ctx : RuleCtx) : Except Unit (ℚ × Option Pattern) :=
  rule4 ctx (rule3 ctx (rule2 ctx (rule1 ctx (0, none))))

/-- Per-symbol detector state, from `PatternDetector.SymbolState.__init__`
(the `symbol` string is omitted). -/
structure SymbolState where
  ema_fast : EMA
  ema_slow : EMA
  vwap : VWAP
  welford : Welford
  last_signal_time : ℚ
  signal_cooldown : ℚ
  avg_volume_ema : EMA
deriving DecidableEq

/-- `PatternDetector.SymbolState.update_and_detect` from
`pattern_engine/pattern_detector.py`: updates all indicators, evaluates the
pattern rules, clamps the score to [-1,1] and emits a signal when the score is
significant and the cooldown has elapsed. Returns the new state and either the
optional signal or an error (the `ZeroDivisionError` of the volatility rule at
`price = 0`; the indicator mutations performed before the raise are kept). -/
def update_and_detect (cfg : Cfg) (st : SymbolState) (price volume timestamp : ℚ) :
    SymbolState × Except Unit (Option Signal) :=
  let emaFastRes := st.ema_fast.update price
  let emaSlowRes := st.ema_slow.update price
  let vwapRes := st.vwap.update price volume
  let welford2 := st.welford.update price
  let avgVolRes := st.avg_volume_ema.update volume
  let ctx : RuleCtx :=
    { mult := cfg.volume_spike_multiplier
      price := price
      volume := volume
      emaFast := emaFastRes.1
      emaSlow := emaSlowRes.1
      vwapPrice := vwapRes.1
      avgVolume := avgVolRes.1
      welford := welford2 }
  let stInd : SymbolState :=
    { st with
      ema_fast := emaFastRes.2
      ema_slow := emaSlowRes.2
      vwap := vwapRes.2
      welford := welford2
      avg_volume_ema := if 0 < volume then avgVolRes.2 else st.avg_volume_ema }
  match evalRules ctx with
  | Except.error e => (stInd, Except.error e)
  | Except.ok sp =>
    let signal_score := max (-1) (min 1 sp.1)
    if cfg.signal_score_min < |signal_score| ∧
        st.signal_cooldown < timestamp - st.last_signal_time then
      let confidence := min 1 (max 0 |signal_score|)
      let tp_hint := cfg.tp_base_pct + cfg.tp_confidence_scale * confidence
      let sl_hint := cfg.sl_base_pct + cfg.sl_confidence_scale * confidence
      ({ stInd with last_signal_time := timestamp },
       Except.ok (some
         { score := signal_score
           pattern := sp.2.getD Pattern.composite
           timestamp := timestamp
           confidence := confidence
           tp_hint_pct := tp_hint
           sl_hint_pct := sl_hint }))
    else (stInd, Except.ok none)

/-- Iterate `update_and_detect` over a list of `(price, volume, timestamp)`
ticks, collecting the emitted signals in order (an erroring call emits nothing
and the caller continues with the partially updated state, as the Python
mutations before the raise persist). -/
def runDetect (cfg : Cfg) (st : SymbolState) : List (ℚ × ℚ × ℚ) → SymbolState × List Signal
  | [] => (st, [])
  | (p, v, t) :: ticks =>
    let r := update_and_detect cfg st p v t
    let rest := runDetect cfg r.1 ticks
    (rest.1, (match r.2 with | Except.ok (some sig) => [sig] | _ => []) ++ rest.2)

/-- The pattern label of the signal emitted by one `update_and_detect` result,
if any. -/
def emittedPattern (r : SymbolState × Except Unit (Option Signal)) : Option Pattern :=
  match r.2 with
  | Except.ok (some sig) => some sig.pattern
  | _ => none

/-- Python string `.upper()`, mapping each character to upper case
(structural recursion over the characters, used instead of `String.toUpper`
so that concrete instances reduce). -/
def pyUpper (s : String) : String := ⟨s.data.map Char.toUpper⟩

/-- Stable insertion of one element into a list sorted by descending weight:
the element goes before the first strictly lighter element, after all
elements of weight at least its own. -/
def insertDesc (w : String → ℚ) (x : String) : List String → List String
  | [] => [x]
  | y :: ys => if w y ≤ w x then x :: y :: ys else y :: insertDesc w x ys

/-- Stable sort by descending weight, modelling Python
`sorted(symbols, key=lambda s: weights.get(s, 1.0), reverse=True)` (which is
the unique stable descending sort). `w` stands for `s ↦ weights.get(s, 1.0)`. -/
def sortDesc (w : String → ℚ) : List String → List String
  | [] => []
  | x :: xs => insertDesc w x (sortDesc w xs)

/-- Index of the first minimal element of a list of bin weights, modelling
`min(range(partitions), key=lambda i: bin_weights[i])` (ties break toward the
lowest index). -/
def minIdx : List ℚ → ℕ
  | [] => 0
  | [_] => 0
  | a :: b :: rest =>
    let j := minIdx (b :: rest)
    if (b :: rest).getD j 0 < a then j + 1 else 0

/-- One iteration of the greedy packing loop in `bin_pack_symbols`
(`partitioning.py` lines 36-39): place the symbol into the currently lightest
bin and add `max(0.0001, weights.get(sym, 1.0))` to that bin weight. -/
def packStep (w : String → ℚ) (acc : List (List String) × List ℚ) (sym : String) :
    List (List String) × List ℚ :=
  let idx := minIdx acc.2
  (acc.1.set idx (acc.1.getD idx [] ++ [sym]),
   acc.2.set idx (acc.2.getD idx 0 + max (1/10000) (w sym)))

/-- `bin_pack_symbols` from `pattern_engine/partitioning.py`: greedy bin
packing; with `partitions <= 1` the whole list is one bin. -/
def bin_pack_symbols (symbols : List String) (w : String → ℚ) (partitions : ℤ) :
    List (List String) :=
  if partitions ≤ 1 then [symbols]
  else
    let p := partitions.toNat
    ((sortDesc w symbols).foldl (packStep w) (List.replicate p [], List.replicate p 0)).1

/-- `select_partition_symbols` from `pattern_engine/partitioning.py`: uppercase
the universe, keep the hot symbols that are in it, bin-pack hot symbols first
followed by the rest, and serve bin `index`; an index outside `[0, partitions)`
falls back to the full uppercased universe. -/
def select_partition_symbols (all_symbols : List String) (w : String → ℚ)
    (partitions index : ℤ) (hot_symbols : List String) : List String :=
  let symbols := all_symbols.map pyUpper
  let hot := hot_symbols.filter (fun s => decide (s ∈ symbols))
  let rest := symbols.filter (fun s => decide (s ∉ hot))
  let bins := bin_pack_symbols (hot ++ rest) w partitions
  if 0 ≤ index ∧ index < partitions then bins.getD index.toNat [] else symbols

/-- The forecast dict exchanged with the forecast backends in
`strategy_engine/ml_client.py`; `source` is absent (`none`) until
`get_dual_forecast` tags it, `errorMeta` records a `meta.error` entry. -/
structure ForecastResult where
  forecast : List ℚ
  confidence : List ℚ
  source : Option String
  errorMeta : Bool
deriving DecidableEq

/-- `ONNXClient.get_forecast` from `strategy_engine/ml_client.py`: the HTTP
call either yields a response dict or raises (timeout or other exception,
modelled as `Except.error`); every failure is converted into a dict with
zero-filled `forecast`/`confidence` lists of length `horizon`. -/
def onnx_get_forecast (outcome : Except Unit ForecastResult) (horizon : ℕ) : ForecastResult :=
  match outcome with
  | Except.ok r => r
  | Except.error _ =>
    { forecast := List.replicate horizon 0
      confidence := List.replicate horizon 0
      source := none
      errorMeta := true }

/-- `TensorRTClient.get_forecast` from `strategy_engine/ml_client.py`: when the
runner is unavailable or the HTTP call fails, returns a dict with empty
`forecast`/`confidence` lists. -/
def tensorrt_get_forecast (available : Bool) (outcome : Except Unit ForecastResult) :
    ForecastResult :=
  if available then
    match outcome with
    | Except.ok r => r
    | Except.error _ => { forecast := [], confidence := [], source := none, errorMeta := true }
  else { forecast := [], confidence := [], source := none, errorMeta := true }

/-- The two racing forecast backends. -/
inductive Backend where
  | onnx
  | trt
deriving DecidableEq

/-- Outcome of `asyncio.wait(..., return_when=FIRST_COMPLETED, timeout=3.0)`:
either no task completed within the overall bound, or one of the two tasks
completed first (the scheduling choice is an explicit parameter of the
embedding). -/
inductive RaceOutcome where
  | timeout
  | winner (b : Backend)
deriving DecidableEq

/-- The zero-filled fallback dict of `get_dual_forecast`. -/
def fallbackResult (horizon : ℕ) : ForecastResult :=
  { forecast := List.replicate horizon 0
    confidence := List.replicate horizon 0
    source := some "fallback"
    errorMeta := false }

/-- `MLServiceManager.get_dual_forecast` from `strategy_engine/ml_client.py`:
short histories short-circuit to `insufficient_data`; otherwise both backend
tasks race and the first completed result is tagged `ml_service` when its
`forecast` list is truthy (non-empty), with the zero-filled `fallback` dict
returned when the race times out or the first result has an empty forecast. -/
def get_dual_forecast (history : List ℚ) (horizon : ℕ)
    (onnxOutcome : Except Unit ForecastResult) (trtAvailable : Bool)
    (trtOutcome : Except Unit ForecastResult) (race : RaceOutcome) : ForecastResult :=
  if history.length < 10 then
    { forecast := List.replicate horizon 0
      confidence := List.replicate horizon 0
      source := some "insufficient_data"
      errorMeta := false }
  else
    match race with
    | RaceOutcome.timeout => fallbackResult horizon
    | RaceOutcome.winner b =>
      let result :=
        match b with
        | Backend.onnx => onnx_get_forecast onnxOutcome horizon
        | Backend.trt => tensorrt_get_forecast trtAvailable trtOutcome
      if result.forecast ≠ [] then { result with source := some "ml_service" }
      else fallbackResult horizon

/-- The decision-factor dict built by `calculate_decision_factors` in
`strategy_engine/enhanced_strategy_service.py` (all nine keys are always
present). -/
structure Factors where
  signal_score : ℚ
  forecast : ℚ
  forecast_confidence : ℚ
  sentiment : ℚ
  sma_trend : ℚ
  rsi_filter : ℚ
  volatility : ℚ
  pattern_strength : ℚ
  ml_confidence : ℚ
deriving DecidableEq

/-- `EnhancedStrategyEngine.calculate_combined_score` from
`enhanced_strategy_service.py`: the fixed weighted sum over the eight weighted
factors (the `volatility` factor carries no weight), scaled by
`0.5 + ml_confidence*0.5` and clamped to [-1,1]. -/
def calculate_combined_score (factors : Factors) : ℚ :=
  let combined :=
    factors.signal_score * (1/4) + factors.forecast * (1/5) +
    factors.forecast_confidence * (3/20) + factors.sentiment * (3/20) +
    factors.sma_trend * (1/10) + factors.rsi_filter * (1/20) +
    factors.pattern_strength * (1/20) + factors.ml_confidence * (1/20)
  let combined2 := combined * (1/2 + factors.ml_confidence * (1/2))
  max (-1) (min 1 combined2)

/-- Python `int()` conversion of a float: truncation toward zero. -/
def pyTrunc (q : ℚ) : ℤ :=
  if 0 ≤ q then ⌊q⌋ else ⌈q⌉

/-- `MAX_POSITION_SIZE` from `enhanced_strategy_service.py`
(environment default 1000). -/
def MAX_POSITION_SIZE : ℤ := 1000

/-- `EnhancedStrategyEngine.calculate_position_size` from
`enhanced_strategy_service.py`. The volatility adjustment divides by
`1 + atr14/current_price` when `current_price > 0` (by Python precedence the
conditional chooses the denominator); a zero denominator is a Python
`ZeroDivisionError`, modelled as `none`. -/
def calculate_position_size (combined_score : ℚ) (factors : Factors)
    (atr14 current_price : ℚ) : Option ℤ :=
  let base_size : ℚ := 100
  let confidence := min |combined_score| factors.ml_confidence
  let confidence_multiplier := 1/2 + confidence * (3/2)
  let denom := if 0 < current_price then 1 + atr14 / current_price else 1
  if denom = 0 then none
  else
    let volatility_adj := 1 / denom
    let position_size := pyTrunc (base_size * confidence_multiplier * volatility_adj)
    some (max 1 (min position_size MAX_POSITION_SIZE))

/-- Python `x or default` for an optional float: `default` when the value is
`None` or `0.0`, used for `self.calculator.atr(symbol, 14) or 1.0`. -/
def pyOrDefault (x : Option ℚ) (d : ℚ) : ℚ :=
  match x with
  | none => d
  | some v => if v = 0 then d else v

/-- `Calculator.atr` from `strategy_engine/calculator.py`, as a function of the
stored high/low/close windows: averages the true ranges
`max(high-low, |high-prev_close|, |low-prev_close|)` over the last `n-1`
periods (negative Python indices `highs[-i]`, `closes[-i-1]` become
`length - i`, `length - (i+1)`). -/
def Calculator.atr (highs lows closes : List ℚ) (n : ℕ) : Option ℚ :=
  if n = 0 then none
  else if highs.length < n ∨ lows.length < n ∨ closes.length < n then none
  else
    let trs := (List.range' 1 (n - 1)).map (fun i =>
      let high := highs.getD (highs.length - i) 0
      let low := lows.getD (lows.length - i) 0
      let prev_close := closes.getD (closes.length - (i + 1)) 0
      max (high - low) (max |high - prev_close| |low - prev_close|))
    if trs = [] then none else some (trs.sum / (trs.length : ℚ))

/-- `MIN_SIGNAL_THRESHOLD` from `enhanced_strategy_service.py`
(environment default 0.3). -/
def MIN_SIGNAL_THRESHOLD : ℚ := 3/10

/-- Order side chosen by the decision thresholds. -/
inductive Side where
  | buy
  | sell
deriving DecidableEq

/-- The order record built by `create_order`, restricted to the fields the
decision logic determines. -/
structure Order where
  side : Side
  qty : ℤ
  combined_score : ℚ
deriving DecidableEq

/-- The pure decision core of `EnhancedStrategyEngine.enhanced_decide_and_order`
(`enhanced_strategy_service.py` lines 109-176): skip weak signals, compute the
combined score, size the position (a raised `ZeroDivisionError` is caught by
the surrounding `try` and yields `None`), then apply the buy/sell thresholds;
scores in `[-0.4, 0.4]` emit no order. `atrOpt` is the value of
`self.calculator.atr(symbol, 14)` before the `or 1.0` default. -/
def enhanced_decide_and_order (factors : Factors) (atrOpt : Option ℚ)
    (current_price : ℚ) : Option Order :=
  let signal_score := factors.signal_score
  if |signal_score| < MIN_SIGNAL_THRESHOLD then none
  else
    let atr14 := pyOrDefault atrOpt 1
    let combined_score := calculate_combined_score factors
    match calculate_position_size combined_score factors atr14 current_price with
    | none => none
    | some position_size =>
      if 2/5 < combined_score then
        some { side := Side.buy, qty := position_size, combined_score := combined_score }
      else if combined_score < -(2/5) then
        some { side := Side.sell, qty := position_size, combined_score := combined_score }
      else none

/-- Trigger condition of the EMA crossover rule, restated from the spec:
both EMAs nonzero and relative difference above the 1% threshold. -/
def specTrig1 (ctx : RuleCtx) : Prop :=
  ctx.emaFast ≠ 0 ∧ ctx.emaSlow ≠ 0 ∧ 1/100 < |(ctx.emaFast - ctx.emaSlow) / ctx.emaSlow|

instance (ctx : RuleCtx) : Decidable (specTrig1 ctx) := by unfold specTrig1; exact inferInstance

/-- Score contribution of the EMA crossover rule: `diff * 2.0` when triggered. -/
def specContrib1 (ctx : RuleCtx) : ℚ :=
  if specTrig1 ctx then ((ctx.emaFast - ctx.emaSlow) / ctx.emaSlow) * 2 else 0

/-- Trigger condition of the VWAP deviation rule: VWAP nonzero and relative
deviation above the 0.5% threshold. -/
def specTrig2 (ctx : RuleCtx) : Prop :=
  ctx.vwapPrice ≠ 0 ∧ 5/1000 < |(ctx.price - ctx.vwapPrice) / ctx.vwapPrice|

instance (ctx : RuleCtx) : Decidable (specTrig2 ctx) := by unfold specTrig2; exact inferInstance

/-- Score contribution of the VWAP deviation rule: `diff * 1.5` when triggered. -/
def specContrib2 (ctx : RuleCtx) : ℚ :=
  if specTrig2 ctx then ((ctx.price - ctx.vwapPrice) / ctx.vwapPrice) * (3/2) else 0

/-- Trigger condition of the volume spike rule: positive volume and
volume/baseline ratio above the spike multiplier (the baseline falls back to
the volume itself when the volume EMA is zero). -/
def specTrig3 (ctx : RuleCtx) : Prop :=
  0 < ctx.volume ∧
    ctx.mult < ctx.volume / (if ctx.avgVolume = 0 then ctx.volume else ctx.avgVolume)

instance (ctx : RuleCtx) : Decidable (specTrig3 ctx) := by unfold specTrig3; exact inferInstance

/-- Score contribution of the volume spike rule: `±0.3` by the sign of the
running score (`+0.3` only when it is strictly positive). -/
def specContrib3 (ctx : RuleCtx) (run : ℚ) : ℚ :=
  if specTrig3 ctx then (if 0 < run then 3/10 else -(3/10)) else 0

/-- Trigger condition of the volatility breakout rule: more than 5 Welford
samples and `|price - (fast_ema or price)| / price > 2 * std`. -/
def specTrig4 (ctx : RuleCtx) : Prop :=
  5 < ctx.welford.count ∧
    breakoutGt2Std (|ctx.price - (if ctx.emaFast = 0 then ctx.price else ctx.emaFast)| / ctx.price)
      ctx.welford.variance

instance (ctx : RuleCtx) : Decidable (specTrig4 ctx) := by unfold specTrig4; exact inferInstance

/-- Score contribution of the volatility breakout rule: `±0.4` by the sign of
the running score (`+0.4` only when it is strictly positive). -/
def specContrib4 (ctx : RuleCtx) (run : ℚ) : ℚ :=
  if specTrig4 ctx then (if 0 < run then 2/5 else -(2/5)) else 0

/-- The pre-clamp signal score restated as the ordered sum of the four rule
contributions (each sign-dependent contribution evaluated at the running sum
of the earlier rules). -/
def specScore (ctx : RuleCtx) : ℚ :=
  let s1 := specContrib1 ctx
  let s2 := s1 + specContrib2 ctx
  let s3 := s2 + specContrib3 ctx s2
  s3 + specContrib4 ctx s3

/-- The final pattern label restated as a priority: the volatility and volume
rules overwrite unconditionally (the last triggered of the two wins), the EMA
label survives only when neither fires, and the VWAP label is used only when
the EMA rule did not set one. -/
def specPattern (ctx : RuleCtx) : Option Pattern :=
  if specTrig4 ctx then some Pattern.volatility_breakout
  else if specTrig3 ctx then some Pattern.volume_spike
  else if specTrig1 ctx then some Pattern.ema_crossover
  else if specTrig2 ctx then some Pattern.vwap_deviation
  else none

/-- A concrete detector state used in witnesses and counterexamples: warm EMAs
(fast 121, slow 100), fresh VWAP/Welford, volume-EMA baseline 1, no prior
signal. -/
def stWit : SymbolState :=
  { ema_fast := { alpha := 1/10, value := some 121 }
    ema_slow := { alpha := 1/20, value := some 100 }
    vwap := { pv := 0, volume := 0 }
    welford := { count := 0, mean := 0, m2 := 0 }
    last_signal_time := 0
    signal_cooldown := 30
    avg_volume_ema := { alpha := 1/10, value := some 1 } }

/-- The detector state after feeding the tick `(price 100, volume 10, t 100)`
to `stWit`. -/
def stWit2 : SymbolState :=
  { ema_fast := { alpha := 1/10, value := some (1189/10) }
    ema_slow := { alpha := 1/20, value := some 100 }
    vwap := { pv := 1000, volume := 10 }
    welford := { count := 1, mean := 100, m2 := 0 }
    last_signal_time := 100
    signal_cooldown := 30
    avg_volume_ema := { alpha := 1/10, value := some (19/10) } }

/-- The signal emitted by `update_and_detect defaultCfg stWit 100 10 100`:
the EMA crossover rule fires (diff 18.9%) and the volume spike rule fires
(ratio 100/19 > 2), so the score is `0.378 + 0.3` and the label is the
overwritten `volume_spike`. -/
def sigWit : Signal :=
  { score := 339/500
    pattern := Pattern.volume_spike
    timestamp := 100
    confidence := 339/500
    tp_hint_pct := 639/50000
    sl_hint_pct := 639/50000 }

/-- Rule context with exactly 5 Welford samples, zero sample variance and an
18.9%-style price change: the volatility rule of the claim would fire, the
implemented rule does not. -/
def ctxFive : RuleCtx :=
  { mult := 2, price := 2, volume := 0, emaFast := 1, emaSlow := 1,
    vwapPrice := 0, avgVolume := 0,
    welford := { count := 5, mean := 0, m2 := 0 } }

/-- Rule context identical to `ctxFive` but with 6 Welford samples and all
other rules silent, so the volatility rule fires on a zero running score. -/
def ctxSix : RuleCtx :=
  { mult := 2, price := 2, volume := 0, emaFast := 1, emaSlow := 1,
    vwapPrice := 0, avgVolume := 0,
    welford := { count := 6, mean := 0, m2 := 0 } }

/-- Factor values that are all 1 except a zero `volatility`, giving a combined
score of exactly 1. -/
def factorsOne : Factors :=
  { signal_score := 1, forecast := 1, forecast_confidence := 1, sentiment := 1,
    sma_trend := 1, rsi_filter := 1, volatility := 0, pattern_strength := 1,
    ml_confidence := 1 }

/-- Factor values that are all 0 except `ml_confidence = 1/2`. -/
def factorsHalf : Factors :=
  { signal_score := 0, forecast := 0, forecast_confidence := 0, sentiment := 0,
    sma_trend := 0, rsi_filter := 0, volatility := 0, pattern_strength := 0,
    ml_confidence := 1/2 }

/-- The constant weight function 1, modelling an empty weights dict
(`weights.get(s, 1.0)` is 1 for every symbol). -/
def wOne : String → ℚ := fun _ => 1

/-- Loop invariant of the greedy packing in `bin_pack_symbols` after `k`
placements into `p` bins: lengths are `p`, a bin is empty exactly when its
accumulated weight is zero, weights are nonnegative, and exactly
`p - k` (truncated) zero-weight bins remain. -/
def PackInv (p k : ℕ) (acc : List (List String) × List ℚ) : Prop :=
  acc.1.length = p ∧ acc.2.length = p ∧
  (∀ i, i < p → (acc.2.getD i 0 = 0 ↔ acc.1.getD i [] = [])) ∧
  (∀ i, 0 ≤ acc.2.getD i 0) ∧
  acc.2.countP (fun q => decide (q = 0)) = p - k

theorem rule1_eq (ctx : RuleCtx) (sp : ℚ × Option Pattern) :
    rule1 ctx sp =
      (sp.1 + specContrib1 ctx, if specTrig1 ctx then some Pattern.ema_crossover else sp.2) := by
  unfold rule1 specContrib1 specTrig1
  split_ifs <;> first | rfl | tauto | simp_all [sub_eq_add_neg]

theorem rule2_eq (ctx : RuleCtx) (sp : ℚ × Option Pattern) :
    rule2 ctx sp =
      (sp.1 + specContrib2 ctx,
       if sp.2 = none ∧ specTrig2 ctx then some Pattern.vwap_deviation else sp.2) := by
  unfold rule2 specContrib2 specTrig2
  by_cases h1 : ctx.vwapPrice ≠ 0
  case neg =>
    have hT : ¬(ctx.vwapPrice ≠ 0 ∧
        5/1000 < |(ctx.price - ctx.vwapPrice) / ctx.vwapPrice|) := fun hc => h1 hc.1
    have hP : ¬(sp.2 = none ∧ ctx.vwapPrice ≠ 0 ∧
        5/1000 < |(ctx.price - ctx.vwapPrice) / ctx.vwapPrice|) := fun hc => h1 hc.2.1
    rw [if_neg h1, if_neg hT, add_zero, if_neg hP]
  case pos =>
    rw [if_pos h1]
    by_cases h2 : 5/1000 < |(ctx.price - ctx.vwapPrice) / ctx.vwapPrice|
    case neg =>
      have hT : ¬(ctx.vwapPrice ≠ 0 ∧
          5/1000 < |(ctx.price - ctx.vwapPrice) / ctx.vwapPrice|) := fun hc => h2 hc.2
      have hP : ¬(sp.2 = none ∧ ctx.vwapPrice ≠ 0 ∧
          5/1000 < |(ctx.price - ctx.vwapPrice) / ctx.vwapPrice|) := fun hc => h2 hc.2.2
      rw [if_neg h2, if_neg hT, add_zero, if_neg hP]
    case pos =>
      have hT : ctx.vwapPrice ≠ 0 ∧
          5/1000 < |(ctx.price - ctx.vwapPrice) / ctx.vwapPrice| := ⟨h1, h2⟩
      rw [if_pos h2, if_pos hT]
      by_cases h3 : sp.2 = none
      · have hP : sp.2 = none ∧ ctx.vwapPrice ≠ 0 ∧
            5/1000 < |(ctx.price - ctx.vwapPrice) / ctx.vwapPrice| := ⟨h3, h1, h2⟩
        rw [if_pos h3, if_pos hP]
      · have hP : ¬(sp.2 = none ∧ ctx.vwapPrice ≠ 0 ∧
            5/1000 < |(ctx.price - ctx.vwapPrice) / ctx.vwapPrice|) := fun hc => h3 hc.1
        rw [if_neg h3, if_neg hP]

theorem rule3_eq (ctx : RuleCtx) (sp : ℚ × Option Pattern) :
    rule3 ctx sp =
      (sp.1 + specContrib3 ctx sp.1,
       if specTrig3 ctx then some Pattern.volume_spike else sp.2) := by
  unfold rule3 specContrib3 specTrig3
  split_ifs <;> first | rfl | tauto | simp_all [sub_eq_add_neg]

theorem rule4_eq (ctx : RuleCtx) (sp : ℚ × Option Pattern) (hp : ctx.price ≠ 0) :
    rule4 ctx sp =
      Except.ok (sp.1 + specContrib4 ctx sp.1,
        if specTrig4 ctx then some Pattern.volatility_breakout else sp.2) := by
  unfold rule4 specContrib4 specTrig4
  split_ifs <;> first | rfl | tauto | simp_all [sub_eq_add_neg]

theorem welford_m2_update_nonneg (w : Welford) (x : ℚ) (h : 0 ≤ w.m2) :
    0 ≤ (w.update x).m2 := by
  unfold Welford.update
  dsimp only
  push_cast
  set c := (w.count : ℚ) with hc0
  have hc1 : (0:ℚ) < c + 1 := by positivity
  have key : (x - w.mean) * (x - (w.mean + (x - w.mean) / (c + 1))) =
      (x - w.mean)^2 * (c / (c + 1)) := by
    field_simp
    ring
  rw [key]
  have hcnn : (0:ℚ) ≤ c := by
    rw [hc0]
    positivity
  have h2 : (0:ℚ) ≤ (x - w.mean)^2 * (c / (c + 1)) := by positivity
  linarith

theorem welford_variance_nonneg (w : Welford) (h : 0 ≤ w.m2) : 0 ≤ w.variance := by
  unfold Welford.variance
  split_ifs with hcnt
  · exact le_refl 0
  · have h2 : (2:ℕ) ≤ w.count := not_lt.mp hcnt
    have : (1:ℚ) ≤ (w.count : ℚ) := by exact_mod_cast Nat.one_le_of_lt h2
    exact div_nonneg h (by linarith)

theorem breakoutGt2Std_iff_sqrt (pc v : ℚ) (hv : 0 ≤ v) :
    breakoutGt2Std pc v ↔ 2 * Real.sqrt (v : ℝ) < (pc : ℝ) := by
  unfold breakoutGt2Std
  have hvR : (0:ℝ) ≤ (v:ℝ) := by exact_mod_cast hv
  have hsqrt : Real.sqrt ((4:ℝ) * (v:ℝ)) = 2 * Real.sqrt (v:ℝ) := by
    rw [show (4:ℝ) * (v:ℝ) = 2^2 * (v:ℝ) by ring, Real.sqrt_mul (by positivity),
      Real.sqrt_sq (by norm_num)]
  constructor
  · rintro ⟨h1, h2⟩
    have hpc : (0:ℝ) < (pc:ℝ) := by exact_mod_cast h1
    have h2R : (4:ℝ) * (v:ℝ) < (pc:ℝ) ^ 2 := by
      have : (4:ℚ) * v < pc * pc := h2
      have := (by exact_mod_cast this : (4:ℝ) * (v:ℝ) < (pc:ℝ) * (pc:ℝ))
      nlinarith
    rw [← hsqrt]
    exact (Real.sqrt_lt' hpc).mpr h2R
  · intro h
    have hpc : (0:ℝ) < (pc:ℝ) := lt_of_le_of_lt (by positivity) h
    have h1 : 0 < pc := by exact_mod_cast hpc
    refine ⟨h1, ?_⟩
    have h4v : (4:ℝ) * (v:ℝ) < (pc:ℝ) ^ 2 := by
      rw [← hsqrt] at h
      exact (Real.sqrt_lt' hpc).mp h
    have : (4:ℝ) * (v:ℝ) < (pc:ℝ) * (pc:ℝ) := by nlinarith
    exact_mod_cast this

/-- C1 (amended): the rule-evaluation block of `update_and_detect` computes the
ordered additive sum of the four rule contributions (each magnitude still
accumulates, the sign-dependent ones evaluated at the running score), but the
pattern label follows overwrite priority: the volatility and volume-spike rules
overwrite `pattern_type` unconditionally, so the last-triggered of those two
wins; the EMA label survives only when neither fires, and the VWAP label is set
only when the EMA rule left the pattern unset. -/
theorem evalRules_additive_score_and_overwrite_pattern (ctx : RuleCtx)
    (hp : ctx.price ≠ 0) :
    evalRules ctx = Except.ok (specScore ctx, specPattern ctx) := by
  unfold evalRules
  rw [rule1_eq, rule2_eq, rule3_eq, rule4_eq _ _ hp]
  dsimp only
  simp only [zero_add]
  unfold specScore specPattern
  dsimp only
  by_cases h1 : specTrig1 ctx <;> by_cases h2 : specTrig2 ctx <;> simp [h1, h2]

theorem evalRules_additive_score_witness :
    ctxSix.price ≠ 0 ∧ evalRules ctxSix = Except.ok (specScore ctxSix, specPattern ctxSix) :=
  ⟨by norm_num [ctxSix],
   evalRules_additive_score_and_overwrite_pattern ctxSix (by norm_num [ctxSix])⟩

theorem updateWit_eq :
    update_and_detect defaultCfg stWit 100 10 100 = (stWit2, Except.ok (some sigWit)) := by
  norm_num [update_and_detect, evalRules, rule1, rule2, rule3, rule4, EMA.update, VWAP.update,
    Welford.update, stWit, stWit2, sigWit, defaultCfg, min_def, max_def, abs_of_pos]

/-- C1 (counterexample): on the tick `(price 100, volume 10, t 100)` from state
`stWit`, the EMA crossover rule triggers (so it sets `pattern_type` first: the
post-update EMAs are 118.9 and 100, an 18.9% difference), yet the emitted
signal carries the `volume_spike` label, because the volume-spike rule
overwrites the already-set pattern. This refutes the claim that a later rule
may set `pattern_type` only when every earlier rule left it unset. -/
theorem pattern_first_set_wins_counterexample :
    emittedPattern (update_and_detect defaultCfg stWit 100 10 100) = some Pattern.volume_spike ∧
    specTrig1 { mult := 2, price := 100, volume := 10, emaFast := 1189/10, emaSlow := 100,
                vwapPrice := 100, avgVolume := 19/10,
                welford := { count := 1, mean := 100, m2 := 0 } } ∧
    Pattern.volume_spike ≠ Pattern.ema_crossover := by
  refine ⟨?_, ?_, by decide⟩
  · rw [updateWit_eq]
    rfl
  · norm_num [specTrig1, abs_of_pos]

/-- C2 (amended): the volatility-breakout rule contributes to the signal score
exactly when the post-update Welford count exceeds 5 (at least 6 samples) and
`|price - (fast_ema or price)| / price > 2*std` (the `specContrib4` trigger);
the contribution is `+0.4` when the running score is strictly positive and
`-0.4` otherwise (also at a zero running score); with 5 or fewer samples the
final score equals the score after the first three rules. -/
theorem volatility_rule_contribution (ctx : RuleCtx) (s : ℚ) (p : Option Pattern)
    (hp : ctx.price ≠ 0)
    (h : evalRules ctx = Except.ok (s, p)) :
    s = (rule3 ctx (rule2 ctx (rule1 ctx (0, none)))).1 +
        specContrib4 ctx (rule3 ctx (rule2 ctx (rule1 ctx (0, none)))).1 ∧
    (ctx.welford.count ≤ 5 → s = (rule3 ctx (rule2 ctx (rule1 ctx (0, none)))).1) := by
  have h4 := rule4_eq ctx (rule3 ctx (rule2 ctx (rule1 ctx (0, none)))) hp
  unfold evalRules at h
  rw [h4] at h
  injection h with h2
  injection h2 with hs hpp
  constructor
  · exact hs.symm
  · intro hc
    have hnt : ¬ specTrig4 ctx := fun ht => absurd ht.1 (not_lt.mpr hc)
    rw [← hs]
    unfold specContrib4
    rw [if_neg hnt, add_zero]

theorem volatility_rule_contribution_witness :
    ctxSix.price ≠ 0 ∧
    ((-(2/5) : ℚ) = (rule3 ctxSix (rule2 ctxSix (rule1 ctxSix (0, none)))).1 +
        specContrib4 ctxSix (rule3 ctxSix (rule2 ctxSix (rule1 ctxSix (0, none)))).1 ∧
     (ctxSix.welford.count ≤ 5 →
        (-(2/5) : ℚ) = (rule3 ctxSix (rule2 ctxSix (rule1 ctxSix (0, none)))).1)) :=
  ⟨by norm_num [ctxSix],
   volatility_rule_contribution ctxSix (-(2/5)) (some Pattern.volatility_breakout)
     (by norm_num [ctxSix])
     (by norm_num [evalRules, rule1, rule2, rule3, rule4, ctxSix, breakoutGt2Std,
        Welford.variance])⟩

/-- C2 (counterexample): with exactly 5 Welford samples (`ctxFive`), zero
sample variance and a 50% price change, every condition of the claim holds
(at least 5 samples, `|price - fast_ema|/price > 2*std`), yet the rule
contributes nothing: the code requires `count > 5`. And with 6 samples and a
zero running score (`ctxSix`), the contribution is `-0.4`, not the
`sign(existing score or default positive)*0.4 = +0.4` the claim states. -/
theorem volatility_rule_claim_counterexample :
    (evalRules ctxFive = Except.ok (0, none) ∧ 5 ≤ ctxFive.welford.count ∧
      breakoutGt2Std (|ctxFive.price - ctxFive.emaFast| / ctxFive.price)
        ctxFive.welford.variance) ∧
    evalRules ctxSix = Except.ok (-(2/5), some Pattern.volatility_breakout) ∧
    (-(2/5) : ℚ) ≠ 2/5 := by
  refine ⟨⟨?_, ?_, ?_⟩, ?_, by norm_num⟩
  · norm_num [evalRules, rule1, rule2, rule3, rule4, ctxFive, breakoutGt2Std, Welford.variance]
  · norm_num [ctxFive]
  · norm_num [ctxFive, breakoutGt2Std, Welford.variance]
  · norm_num [evalRules, rule1, rule2, rule3, rule4, ctxSix, breakoutGt2Std, Welford.variance]

/-- C3 (code bug): when every backend call fails — the ONNX HTTP call raises and
the TensorRT runner is unavailable — and the failed ONNX task completes first
within the overall 3-second bound, `get_dual_forecast` returns the zero-filled
dict tagged `ml_service`, not `fallback`: `ONNXClient.get_forecast` converts
its failure into a non-empty zero forecast, which the truthiness check in
`get_dual_forecast` then labels as a live ml-service result. -/
theorem get_dual_forecast_mislabels_failed_backend :
    (get_dual_forecast (List.replicate 10 (100:ℚ)) 10 (Except.error ()) false
        (Except.error ()) (RaceOutcome.winner Backend.onnx)).source = some "ml_service" ∧
    (get_dual_forecast (List.replicate 10 (100:ℚ)) 10 (Except.error ()) false
        (Except.error ()) (RaceOutcome.winner Backend.onnx)).forecast =
      List.replicate 10 (0:ℚ) ∧
    ("ml_service" : String) ≠ "fallback" := by
  refine ⟨?_, ?_, by decide⟩ <;>
    simp [get_dual_forecast, onnx_get_forecast]

theorem update_cooldown (cfg : Cfg) (st : SymbolState) (p v t : ℚ) :
    (update_and_detect cfg st p v t).1.signal_cooldown = st.signal_cooldown := by
  unfold update_and_detect
  dsimp only
  split
  · rfl
  · split <;> rfl

theorem update_welford_state (cfg : Cfg) (st : SymbolState) (p v t : ℚ) :
    (update_and_detect cfg st p v t).1.welford = st.welford.update p := by
  unfold update_and_detect
  dsimp only
  split
  · rfl
  · split <;> rfl

theorem update_cases (cfg : Cfg) (st : SymbolState) (p v t : ℚ) :
    (((update_and_detect cfg st p v t).2 = Except.error () ∨
      (update_and_detect cfg st p v t).2 = Except.ok none) ∧
     (update_and_detect cfg st p v t).1.last_signal_time = st.last_signal_time) ∨
    ∃ sig, (update_and_detect cfg st p v t).2 = Except.ok (some sig) ∧
      (update_and_detect cfg st p v t).1.last_signal_time = t ∧ sig.timestamp = t ∧
      st.signal_cooldown < t - st.last_signal_time := by
  unfold update_and_detect
  dsimp only
  split
  · left
    exact ⟨Or.inl rfl, rfl⟩
  · split
    case isTrue hcond => exact Or.inr ⟨_, rfl, rfl, rfl, hcond.2⟩
    case isFalse hcond => exact Or.inl ⟨Or.inr rfl, rfl⟩

theorem runDetect_spacing (cfg : Cfg) (ticks : List (ℚ × ℚ × ℚ)) :
    ∀ st : SymbolState, 0 ≤ st.signal_cooldown →
      (∀ sig ∈ (runDetect cfg st ticks).2,
        st.signal_cooldown < sig.timestamp - st.last_signal_time) ∧
      List.Pairwise (fun a b => st.signal_cooldown < b.timestamp - a.timestamp)
        (runDetect cfg st ticks).2 := by
  induction ticks with
  | nil =>
    intro st h
    simp [runDetect]
  | cons tick ticks ih =>
    obtain ⟨p, v, t⟩ := tick
    intro st h
    have hcd := update_cooldown cfg st p v t
    have hrest := ih (update_and_detect cfg st p v t).1 (by rw [hcd]; exact h)
    rw [hcd] at hrest
    rcases update_cases cfg st p v t with ⟨hshape, hlast⟩ | ⟨sig0, hok, hlast, hts, hgap⟩
    · -- no emission: the prefix is empty and nothing changes
      rw [hlast] at hrest
      constructor
      · intro sig hsig
        apply hrest.1
        rw [runDetect] at hsig
        rcases hshape with hs | hs <;> simpa [hs] using hsig
      · have hlist : (runDetect cfg st ((p, v, t) :: ticks)).2 =
            (runDetect cfg (update_and_detect cfg st p v t).1 ticks).2 := by
          rw [runDetect]
          rcases hshape with hs | hs <;> simp [hs]
        rw [hlist]
        exact hrest.2
    · -- emission of sig0 with timestamp t
      rw [hlast] at hrest
      have hlist : (runDetect cfg st ((p, v, t) :: ticks)).2 =
          sig0 :: (runDetect cfg (update_and_detect cfg st p v t).1 ticks).2 := by
        rw [runDetect]
        simp [hok]
      rw [hlist]
      constructor
      · intro sig hsig
        rcases List.mem_cons.mp hsig with rfl | hmem
        · rw [hts]
          exact hgap
        · have h1 := hrest.1 sig hmem
          have h2 : st.signal_cooldown < sig.timestamp - t := h1
          linarith
      · refine List.Pairwise.cons ?_ hrest.2
        intro sig hmem
        have h1 := hrest.1 sig hmem
        rw [hts]
        exact h1

theorem update_emit_fields (cfg : Cfg) (st : SymbolState) (p v t : ℚ) :
    ∀ sig, (update_and_detect cfg st p v t).2 = Except.ok (some sig) →
      sig.timestamp = t ∧ (update_and_detect cfg st p v t).1.last_signal_time = t ∧
      st.signal_cooldown < t - st.last_signal_time ∧
      ((-1 ≤ sig.score ∧ sig.score ≤ 1) ∧ (0 ≤ sig.confidence ∧ sig.confidence ≤ 1)) := by
  unfold update_and_detect
  dsimp only
  split
  · intro sig h
    simp at h
  · split
    case isTrue hcond =>
      intro sig h
      injection h with h1
      injection h1 with h1
      subst h1
      refine ⟨rfl, rfl, hcond.2, ⟨le_max_left _ _, ?_⟩, ⟨?_, min_le_left _ _⟩⟩
      · exact max_le (by norm_num) (min_le_left _ _)
      · exact le_min (by norm_num) (le_max_left _ _)
    case isFalse hcond =>
      intro sig h
      simp at h

/-- C4: for every configuration, starting state and tick sequence with
arbitrary timestamps, the emitted signals are spaced more than
`signal_cooldown` apart pairwise (every emission exceeds the timestamp of
every earlier emission by more than the cooldown, given a nonnegative
cooldown), and each emission sets `last_signal_time` to the emitted
timestamp, which is the timestamp of the triggering tick. -/
theorem signal_cooldown_enforced :
    (∀ (cfg : Cfg) (st : SymbolState) (ticks : List (ℚ × ℚ × ℚ)), 0 ≤ st.signal_cooldown →
      List.Pairwise (fun a b => st.signal_cooldown < b.timestamp - a.timestamp)
        (runDetect cfg st ticks).2) ∧
    (∀ (cfg : Cfg) (st : SymbolState) (p v t : ℚ) (sig : Signal),
      (update_and_detect cfg st p v t).2 = Except.ok (some sig) →
      (update_and_detect cfg st p v t).1.last_signal_time = sig.timestamp ∧
      sig.timestamp = t) :=
  ⟨fun cfg st ticks h => (runDetect_spacing cfg ticks st h).2,
   fun cfg st p v t sig h =>
     have hf := update_emit_fields cfg st p v t sig h
     ⟨by rw [hf.2.1, hf.1], hf.1⟩⟩

theorem signal_cooldown_enforced_witness :
    (0:ℚ) ≤ stWit.signal_cooldown ∧
    List.Pairwise (fun a b => stWit.signal_cooldown < b.timestamp - a.timestamp)
      (runDetect defaultCfg stWit [(100, 10, 100)]).2 :=
  ⟨by norm_num [stWit],
   signal_cooldown_enforced.1 defaultCfg stWit [(100, 10, 100)] (by norm_num [stWit])⟩

/-- C5: for every configuration, starting state and tick sequence, every
emitted signal has its score clamped to [-1, 1] (the clamp is applied before
the emission check in `update_and_detect`) and its confidence in [0, 1]. -/
theorem emitted_signal_clamped (cfg : Cfg) (ticks : List (ℚ × ℚ × ℚ)) :
    ∀ (st : SymbolState), ∀ sig ∈ (runDetect cfg st ticks).2,
      (-1 ≤ sig.score ∧ sig.score ≤ 1) ∧ (0 ≤ sig.confidence ∧ sig.confidence ≤ 1) := by
  induction ticks with
  | nil =>
    intro st sig h
    simp [runDetect] at h
  | cons tick ticks ih =>
    obtain ⟨p, v, t⟩ := tick
    intro st sig hsig
    rw [runDetect] at hsig
    dsimp only at hsig
    rcases List.mem_append.mp hsig with hpre | hrest
    · rcases hr : (update_and_detect cfg st p v t).2 with e | osig
      · rw [hr] at hpre
        simp at hpre
      · rcases osig with _ | sig0
        · rw [hr] at hpre
          simp at hpre
        · rw [hr] at hpre
          simp at hpre
          subst hpre
          exact (update_emit_fields cfg st p v t sig hr).2.2.2
    · exact ih _ sig hrest

theorem emitted_signal_clamped_witness :
    sigWit ∈ (runDetect defaultCfg stWit [(100, 10, 100)]).2 ∧
    ((-1 ≤ sigWit.score ∧ sigWit.score ≤ 1) ∧
     (0 ≤ sigWit.confidence ∧ sigWit.confidence ≤ 1)) :=
  ⟨by simp [runDetect, updateWit_eq],
   emitted_signal_clamped defaultCfg [(100, 10, 100)] stWit sigWit
     (by simp [runDetect, updateWit_eq])⟩

/-- C6: `VWAP.update` accumulates `price*volume` and `volume`, returns 0 while
the cumulative volume is 0 (the division is guarded and never performed with a
zero denominator), and otherwise returns the ratio of the accumulators; on a
fresh accumulator `update 100 10` returns 100 and the subsequent
`update 110 10` returns 105. -/
theorem vwap_update_spec :
    (∀ (pv vol p v : ℚ),
      (VWAP.update ⟨pv, vol⟩ p v).2.pv = pv + p * v ∧
      (VWAP.update ⟨pv, vol⟩ p v).2.volume = vol + v ∧
      (vol + v = 0 → (VWAP.update ⟨pv, vol⟩ p v).1 = 0) ∧
      (vol + v ≠ 0 → (VWAP.update ⟨pv, vol⟩ p v).1 = (pv + p * v) / (vol + v))) ∧
    (VWAP.update ⟨0, 0⟩ 100 10).1 = 100 ∧
    (VWAP.update (VWAP.update ⟨0, 0⟩ 100 10).2 110 10).1 = 105 := by
  refine ⟨fun pv vol p v => ⟨rfl, rfl, ?_, ?_⟩, ?_, ?_⟩
  · intro h
    unfold VWAP.update
    dsimp only
    rw [if_pos h]
  · intro h
    unfold VWAP.update
    dsimp only
    rw [if_neg h]
  · norm_num [VWAP.update]
  · norm_num [VWAP.update]

theorem vwap_update_spec_witness :
    (VWAP.update ⟨7, 0⟩ 5 0).1 = 0 ∧
    (VWAP.update ⟨0, 0⟩ 100 10).1 = (0 + 100 * 10) / (0 + 10) :=
  ⟨(vwap_update_spec.1 7 0 5 0).2.2.1 (by norm_num),
   (vwap_update_spec.1 0 0 100 10).2.2.2 (by norm_num)⟩

/-- C7: `select_partition_symbols` with a partition index outside
`[0, partitions)` falls back to the full (uppercased) unpartitioned symbol
universe; with an index inside the range it returns exactly bin `index` of the
greedy bin-packing over the hot symbols present in the universe
(order-preserved), followed by the remaining symbols. -/
theorem select_partition_fallback :
    ∀ (all_symbols : List String) (w : String → ℚ) (partitions index : ℤ)
      (hot_symbols : List String),
      (¬(0 ≤ index ∧ index < partitions) →
        select_partition_symbols all_symbols w partitions index hot_symbols =
          all_symbols.map pyUpper) ∧
      ((0 ≤ index ∧ index < partitions) →
        select_partition_symbols all_symbols w partitions index hot_symbols =
          (bin_pack_symbols
            (hot_symbols.filter (fun s => decide (s ∈ all_symbols.map pyUpper)) ++
             (all_symbols.map pyUpper).filter
               (fun s => decide (s ∉
                 hot_symbols.filter (fun s2 => decide (s2 ∈ all_symbols.map pyUpper)))))
            w partitions).getD index.toNat []) := by
  intro all_symbols w partitions index hot_symbols
  constructor <;> intro h
  · unfold select_partition_symbols
    dsimp only
    rw [if_neg h]
  · unfold select_partition_symbols
    dsimp only
    rw [if_pos h]

theorem select_partition_fallback_witness :
    select_partition_symbols [] wOne 2 5 [] = [] ∧
    select_partition_symbols [] wOne 2 0 [] = (bin_pack_symbols [] wOne 2).getD 0 [] := by
  constructor
  · simpa using (select_partition_fallback [] wOne 2 5 []).1 (by decide)
  · simpa using (select_partition_fallback [] wOne 2 0 []).2 (by decide)

theorem insertDesc_length (w : String → ℚ) (x : String) :
    ∀ l : List String, (insertDesc w x l).length = l.length + 1 := by
  intro l
  induction l with
  | nil => rfl
  | cons y ys ih =>
    unfold insertDesc
    split
    · rfl
    · simp [ih]

theorem sortDesc_length (w : String → ℚ) :
    ∀ l : List String, (sortDesc w l).length = l.length := by
  intro l
  induction l with
  | nil => rfl
  | cons x xs ih =>
    unfold sortDesc
    rw [insertDesc_length, ih, List.length_cons]

theorem minIdx_lt : ∀ l : List ℚ, l ≠ [] → minIdx l < l.length := by
  intro l
  induction l with
  | nil => intro h; exact absurd rfl h
  | cons a rest ih =>
    intro _
    match rest with
    | [] => exact Nat.zero_lt_one
    | b :: tl =>
      unfold minIdx
      dsimp only
      split
      · have := ih (by simp)
        simpa using Nat.succ_lt_succ this
      · simp

theorem minIdx_le : ∀ (l : List ℚ) (j : ℕ), j < l.length → l.getD (minIdx l) 0 ≤ l.getD j 0 := by
  intro l
  induction l with
  | nil => intro j hj; simp at hj
  | cons a rest ih =>
    intro j hj
    match rest with
    | [] =>
      match j with
      | 0 => exact le_refl _
      | j' + 1 => simp at hj
    | b :: tl =>
      unfold minIdx
      dsimp only
      split
      case isTrue hlt =>
        rw [List.getD_cons_succ]
        match j with
        | 0 => exact le_of_lt (by simpa using hlt)
        | j' + 1 =>
          rw [List.getD_cons_succ]
          exact ih j' (by simpa using hj)
      case isFalse hge =>
        rw [List.getD_cons_zero]
        match j with
        | 0 => exact le_refl _
        | j' + 1 =>
          rw [List.getD_cons_succ]
          have h1 : a ≤ (b :: tl).getD (minIdx (b :: tl)) 0 := not_lt.mp hge
          exact le_trans h1 (ih j' (by simpa using hj))

theorem getD_set_self {α : Type} (l : List α) (i : ℕ) (x d : α) (h : i < l.length) :
    (l.set i x).getD i d = x := by
  simp [List.getD_eq_getElem?_getD, List.getElem?_set_self, h]

theorem getD_set_ne {α : Type} (l : List α) (i j : ℕ) (x d : α) (h : i ≠ j) :
    (l.set i x).getD j d = l.getD j d := by
  simp [List.getD_eq_getElem?_getD, List.getElem?_set_ne h]

theorem getD_mem (l : List ℚ) (i : ℕ) (h : i < l.length) : l.getD i 0 ∈ l := by
  rw [List.getD_eq_getElem?_getD, List.getElem?_eq_getElem h]
  exact List.getElem_mem h

theorem countP_set (pred : ℚ → Bool) :
    ∀ (l : List ℚ) (i : ℕ) (x : ℚ), i < l.length →
      (l.set i x).countP pred + (if pred (l.getD i 0) then 1 else 0) =
      l.countP pred + (if pred x then 1 else 0) := by
  intro l
  induction l with
  | nil => intro i x h; simp at h
  | cons a tl ih =>
    intro i x h
    match i with
    | 0 =>
      simp only [List.set_cons_zero, List.countP_cons, List.getD_cons_zero]
      omega
    | n + 1 =>
      simp only [List.set_cons_succ, List.countP_cons, List.getD_cons_succ]
      have := ih n x (by simpa using h)
      omega

theorem countP_zero_replicate (n : ℕ) :
    (List.replicate n (0:ℚ)).countP (fun q => decide (q = 0)) = n := by
  induction n with
  | zero => rfl
  | succ n ih => simp [List.replicate_succ, List.countP_cons, ih]

theorem packInv_init (p : ℕ) : PackInv p 0 (List.replicate p [], List.replicate p 0) := by
  unfold PackInv
  refine ⟨by simp, by simp, ?_, ?_, ?_⟩
  · intro i hip
    simp [List.getD_eq_getElem?_getD, List.getElem?_replicate, hip]
  · intro i
    rcases lt_or_ge i p with h | h
    · simp [List.getD_eq_getElem?_getD, List.getElem?_replicate, h]
    · have hnl : ¬ i < p := not_lt.mpr h
      simp [List.getD_eq_getElem?_getD, List.getElem?_replicate, hnl]
  · rw [countP_zero_replicate]
    omega

theorem packStep_inv (w : String → ℚ) (p k : ℕ) (acc : List (List String) × List ℚ)
    (hinv : PackInv p k acc) (sym : String) :
    PackInv p (k + 1) (packStep w acc sym) := by
  unfold PackInv at hinv ⊢
  obtain ⟨hb, hwl, hiff, hnn, hcount⟩ := hinv
  unfold packStep
  dsimp only
  by_cases hp : 0 < p
  case neg =>
    -- p = 0: both lists are empty, setting is a no-op
    have hp0 : p = 0 := by omega
    subst hp0
    have hb0 : acc.1 = [] := List.length_eq_zero.mp hb
    have hw0 : acc.2 = [] := List.length_eq_zero.mp hwl
    rw [hb0, hw0]
    simp [hb0, hw0]
  case pos =>
  set idx := minIdx acc.2 with hidx
  have hne : acc.2 ≠ [] := by
    intro h0
    rw [h0] at hwl
    simp at hwl
    omega
  have hidxlt : idx < acc.2.length := minIdx_lt acc.2 hne
  have hidxp : idx < p := by rwa [hwl] at hidxlt
  have hidxb : idx < acc.1.length := by rw [hb]; exact hidxp
  have hd : (0:ℚ) < max (1/10000) (w sym) := lt_of_lt_of_le (by norm_num) (le_max_left _ _)
  have hwnew : (0:ℚ) < acc.2.getD idx 0 + max (1/10000) (w sym) := by
    have := hnn idx
    linarith
  refine ⟨by simp [hb], by simp [hwl], ?_, ?_, ?_⟩
  · intro i hip
    by_cases hii : i = idx
    · subst hii
      rw [getD_set_self _ _ _ _ hidxlt, getD_set_self _ _ _ _ hidxb]
      constructor
      · intro h0
        exact absurd h0 (ne_of_gt hwnew)
      · intro h0
        exact absurd h0 (by simp)
    · rw [getD_set_ne _ _ _ _ _ (Ne.symm hii), getD_set_ne _ _ _ _ _ (Ne.symm hii)]
      exact hiff i hip
  · intro i
    by_cases hii : i = idx
    · subst hii
      rw [getD_set_self _ _ _ _ hidxlt]
      exact le_of_lt hwnew
    · rw [getD_set_ne _ _ _ _ _ (Ne.symm hii)]
      exact hnn i
  · have hset := countP_set (fun q => decide (q = 0)) acc.2 idx
        (acc.2.getD idx 0 + max (1/10000) (w sym)) hidxlt
    have hnewne : ¬ (acc.2.getD idx 0 + max (1/10000) (w sym) = 0) := ne_of_gt hwnew
    simp only [decide_eq_true_eq] at hset
    rw [if_neg hnewne] at hset
    by_cases hzero : acc.2.getD idx 0 = 0
    · rw [if_pos hzero] at hset
      have h1 : 0 < acc.2.countP (fun q => decide (q = 0)) :=
        List.countP_pos_iff.mpr ⟨_, getD_mem _ _ hidxlt, decide_eq_true hzero⟩
      omega
    · rw [if_neg hzero] at hset
      have hno : acc.2.countP (fun q => decide (q = 0)) = 0 := by
        rw [List.countP_eq_zero]
        intro x hx
        simp only [decide_eq_true_eq]
        intro hx0
        obtain ⟨j, hj, hje⟩ := List.getElem_of_mem hx
        have h1 : acc.2.getD idx 0 ≤ acc.2.getD j 0 := minIdx_le acc.2 j hj
        have h2 : acc.2.getD j 0 = 0 := by
          rw [List.getD_eq_getElem?_getD, List.getElem?_eq_getElem hj]
          simp [hje, hx0]
        exact hzero (by linarith [hnn idx])
      omega

theorem foldl_packStep_inv (w : String → ℚ) (p : ℕ) :
    ∀ (l : List String) (k : ℕ) (acc : List (List String) × List ℚ), PackInv p k acc →
      PackInv p (k + l.length) (l.foldl (packStep w) acc) := by
  intro l
  induction l with
  | nil =>
    intro k acc h
    simpa using h
  | cons s tl ih =>
    intro k acc h
    rw [List.foldl_cons]
    have h2 := ih (k + 1) (packStep w acc s) (packStep_inv w p k acc h s)
    have h3 : k + (s :: tl).length = k + 1 + tl.length := by
      simp
      omega
    rw [h3]
    exact h2

/-- C8: for every symbol list, weight function and partition count at least 2
with at least as many symbols as partitions, `bin_pack_symbols` returns exactly
`partitions` bins and no bin is empty: every placement adds a strictly positive
floored weight `max(0.0001, w)` to the chosen bin, so the greedy argmin fills
every zero-weight (empty) bin before reusing any nonempty one. -/
theorem bin_pack_no_empty_bins (symbols : List String) (w : String → ℚ) (partitions : ℤ)
    (h2 : 2 ≤ partitions) (hlen : partitions ≤ (symbols.length : ℤ)) :
    (bin_pack_symbols symbols w partitions).length = partitions.toNat ∧
    ∀ b ∈ bin_pack_symbols symbols w partitions, b ≠ [] := by
  unfold bin_pack_symbols
  rw [if_neg (by omega : ¬ partitions ≤ 1)]
  dsimp only
  have hfin := foldl_packStep_inv w partitions.toNat (sortDesc w symbols) 0
    (List.replicate partitions.toNat [], List.replicate partitions.toNat 0)
    (packInv_init partitions.toNat)
  unfold PackInv at hfin
  obtain ⟨hb, hwl, hiff, hnn, hcount⟩ := hfin
  have hslen : (sortDesc w symbols).length = symbols.length := sortDesc_length w symbols
  have hcount0 : ((sortDesc w symbols).foldl (packStep w)
      (List.replicate partitions.toNat [], List.replicate partitions.toNat 0)).2.countP
        (fun q => decide (q = 0)) = 0 := by
    rw [hcount]
    omega
  refine ⟨hb, ?_⟩
  intro b hbmem hbe
  obtain ⟨i, hi, hbi⟩ := List.getElem_of_mem hbmem
  have hip : i < partitions.toNat := by rwa [hb] at hi
  have hbD : ((sortDesc w symbols).foldl (packStep w)
      (List.replicate partitions.toNat [], List.replicate partitions.toNat 0)).1.getD i [] =
      b := by
    rw [List.getD_eq_getElem?_getD, List.getElem?_eq_getElem hi]
    simp [hbi]
  have hwz := (hiff i hip).mpr (by rw [hbD]; exact hbe)
  have hmem2 := getD_mem ((sortDesc w symbols).foldl (packStep w)
      (List.replicate partitions.toNat [], List.replicate partitions.toNat 0)).2 i
      (by rw [hwl]; exact hip)
  exact (List.countP_eq_zero.mp hcount0 _ hmem2) (decide_eq_true hwz)

theorem bin_pack_no_empty_bins_witness :
    ((bin_pack_symbols ["A", "B"] wOne 2).length = (2:ℤ).toNat ∧
      ∀ b ∈ bin_pack_symbols ["A", "B"] wOne 2, b ≠ []) :=
  bin_pack_no_empty_bins ["A", "B"] wOne 2 (by decide) (by decide)

theorem atr_nonneg (highs lows closes : List ℚ) (n : ℕ) (a : ℚ)
    (h : Calculator.atr highs lows closes n = some a) : 0 ≤ a := by
  unfold Calculator.atr at h
  dsimp only at h
  split_ifs at h with h1 h2 h3
  injection h with h4
  rw [← h4]
  apply div_nonneg
  · apply List.sum_nonneg
    intro x hx
    obtain ⟨i, hi, rfl⟩ := List.mem_map.mp hx
    exact le_trans (abs_nonneg _) (le_trans (le_max_left _ _) (le_max_right _ _))
  · positivity

theorem pyOrDefault_atr_pos (highs lows closes : List ℚ) (n : ℕ) :
    0 < pyOrDefault (Calculator.atr highs lows closes n) 1 := by
  unfold pyOrDefault
  cases hatr : Calculator.atr highs lows closes n with
  | none => norm_num
  | some a =>
    dsimp only
    split_ifs with h0
    · norm_num
    · exact lt_of_le_of_ne (atr_nonneg _ _ _ _ _ hatr) (Ne.symm h0)

theorem position_size_aux (c : ℚ) (f : Factors) (atr price : ℚ)
    (h : price ≤ 0 ∨ 1 + atr / price ≠ 0) :
    ∃ n, calculate_position_size c f atr price = some n ∧ 1 ≤ n ∧ n ≤ MAX_POSITION_SIZE := by
  unfold calculate_position_size
  dsimp only
  have hden : ¬ ((if 0 < price then 1 + atr / price else 1) = 0) := by
    split_ifs with hp
    · rcases h with h | h
      · linarith
      · exact h
    · norm_num
  rw [if_neg hden]
  exact ⟨_, rfl, le_max_left _ _,
    max_le (by norm_num [MAX_POSITION_SIZE]) (min_le_right _ _)⟩

/-- C10 (amended): for every combined score, factor map, ATR value and current
price such that the volatility-adjustment denominator is nonzero — that is,
`current_price ≤ 0` or `1 + atr14/current_price ≠ 0`, which covers every
nonnegative ATR value — `calculate_position_size` returns an integer `n` with
`1 ≤ n ≤ MAX_POSITION_SIZE`; it never returns zero or a negative size. With
`current_price > 0` and `atr14 = -current_price` the division raises instead
(see the counterexample). -/
theorem position_size_bounds (combined_score : ℚ) (factors : Factors)
    (atr14 current_price : ℚ)
    (h : current_price ≤ 0 ∨ 1 + atr14 / current_price ≠ 0) :
    ∃ n, calculate_position_size combined_score factors atr14 current_price = some n ∧
      1 ≤ n ∧ n ≤ MAX_POSITION_SIZE :=
  position_size_aux combined_score factors atr14 current_price h

theorem position_size_bounds_witness :
    ((1:ℚ) ≤ 0 ∨ 1 + (0:ℚ) / 1 ≠ 0) ∧
    ∃ n, calculate_position_size 1 factorsOne 0 1 = some n ∧
      1 ≤ n ∧ n ≤ MAX_POSITION_SIZE :=
  ⟨Or.inr (by norm_num), position_size_bounds 1 factorsOne 0 1 (Or.inr (by norm_num))⟩

/-- C10 (counterexample): at `atr14 = -1` and `current_price = 1` the
volatility adjustment computes `1 / (1 + (-1)/1) = 1/0`, a Python
`ZeroDivisionError`: `calculate_position_size` returns no integer at all,
refuting the claim that it returns `1 ≤ n ≤ MAX_POSITION_SIZE` for every ATR
value. -/
theorem position_size_total_counterexample :
    calculate_position_size 0 factorsHalf (-1) 1 = none := by
  norm_num [calculate_position_size]

/-- C9: in the decision core of `enhanced_decide_and_order`, for every factor
map that passes the weak-signal gate, every calculator ATR window and every
current price: a combined score above 0.4 yields a buy order, below -0.4 a
sell order, and a combined score in [-0.4, 0.4] yields no order (the function
returns `None`). -/
theorem decision_thresholds (factors : Factors) (highs lows closes : List ℚ)
    (current_price : ℚ)
    (hsig : ¬ (|factors.signal_score| < MIN_SIGNAL_THRESHOLD)) :
    (2/5 < calculate_combined_score factors →
      ∃ sz, enhanced_decide_and_order factors (Calculator.atr highs lows closes 14)
          current_price =
        some { side := Side.buy, qty := sz,
               combined_score := calculate_combined_score factors }) ∧
    (calculate_combined_score factors < -(2/5) →
      ∃ sz, enhanced_decide_and_order factors (Calculator.atr highs lows closes 14)
          current_price =
        some { side := Side.sell, qty := sz,
               combined_score := calculate_combined_score factors }) ∧
    (-(2/5) ≤ calculate_combined_score factors → calculate_combined_score factors ≤ 2/5 →
      enhanced_decide_and_order factors (Calculator.atr highs lows closes 14)
          current_price = none) := by
  have hatr : 0 < pyOrDefault (Calculator.atr highs lows closes 14) 1 :=
    pyOrDefault_atr_pos highs lows closes 14
  have hcond : current_price ≤ 0 ∨
      1 + pyOrDefault (Calculator.atr highs lows closes 14) 1 / current_price ≠ 0 := by
    by_cases hp : 0 < current_price
    · right
      have hq : 0 < pyOrDefault (Calculator.atr highs lows closes 14) 1 / current_price :=
        div_pos hatr hp
      have : (0:ℚ) < 1 + pyOrDefault (Calculator.atr highs lows closes 14) 1 / current_price := by
        linarith
      exact ne_of_gt this
    · exact Or.inl (le_of_not_lt hp)
  obtain ⟨sz, hps, hn1, hn2⟩ := position_size_aux (calculate_combined_score factors) factors
    (pyOrDefault (Calculator.atr highs lows closes 14) 1) current_price hcond
  unfold enhanced_decide_and_order
  dsimp only
  rw [if_neg hsig, hps]
  dsimp only
  refine ⟨?_, ?_, ?_⟩
  · intro hgt
    rw [if_pos hgt]
    exact ⟨sz, rfl⟩
  · intro hlt
    rw [if_neg (by linarith : ¬ 2/5 < calculate_combined_score factors), if_pos hlt]
    exact ⟨sz, rfl⟩
  · intro hge hle
    rw [if_neg (by linarith : ¬ 2/5 < calculate_combined_score factors),
      if_neg (by linarith : ¬ calculate_combined_score factors < -(2/5))]

theorem decision_thresholds_witness :
    ¬ (|factorsOne.signal_score| < MIN_SIGNAL_THRESHOLD) ∧
    (2/5 : ℚ) < calculate_combined_score factorsOne ∧
    ∃ sz, enhanced_decide_and_order factorsOne (Calculator.atr [] [] [] 14) 0 =
      some { side := Side.buy, qty := sz,
             combined_score := calculate_combined_score factorsOne } :=
  ⟨by norm_num [factorsOne, MIN_SIGNAL_THRESHOLD, abs_of_pos],
   by norm_num [calculate_combined_score, factorsOne, min_def, max_def],
   (decision_thresholds factorsOne [] [] [] 0
       (by norm_num [factorsOne, MIN_SIGNAL_THRESHOLD, abs_of_pos])).1
     (by norm_num [calculate_combined_score, factorsOne, min_def, max_def])⟩
